import Mathlib

/-!
Verification of the `iscctl` utility (src/utils/iscctl/iscctl.py) against its
natural-language specification.  The Python source is shallowly embedded:
byte buffers become `List Nat` (each element a byte value), Python integers
become `Nat` (all integers decoded from byte buffers are non-negative),
fallible code returns `Except`, and the I/O loops of `do_test_auth` are
embedded as pure functions that return the sequence of exchanges they
would perform.
-/

namespace Iscctl

/-- Big-endian interpretation of a byte buffer as an unsigned integer,
embedding pycryptodome's `bytes_to_long`. -/
def bytes_to_long (bs : List Nat) : Nat :=
  bs.foldl (fun acc b => acc * 256 + b) 0

/-- Big-endian encoding of `x` into exactly `k` bytes, embedding Python's
`int.to_bytes(x, k, 'big')` (the callers always mask `x` first, so the
overflow error of `to_bytes` is unreachable and the low `k` bytes are kept). -/
def natToBytes (x : Nat) : Nat → List Nat
  | 0 => []
  | k + 1 => natToBytes (x / 256) k ++ [x % 256]

/-- Command APDU, embedding class `APDU` of iscctl.py (fields `cla`, `ins`,
`p1`, `p2`, `payload`, `le`, `force_extended`). -/
structure APDU where
  cla : Nat
  ins : Nat
  p1 : Nat
  p2 : Nat
  payload : Option (List Nat) := none
  le : Nat := 0
  force_extended : Bool := false
  deriving Repr, DecidableEq

/-- Embeds `lc = len(self.payload) if self.payload is not None else 0`. -/
def APDU.lc (a : APDU) : Nat :=
  match a.payload with
  | none => 0
  | some p => p.length

/-- The byte content of the payload (`None` carries no bytes). -/
def APDU.payloadBytes (a : APDU) : List Nat :=
  a.payload.getD []

/-- Embeds the `extended` condition of `APDU.serialize`:
`(force_extended and (lc > 0 or le > 0)) or (lc > 0xff or le > 0x100)`. -/
def APDU.extended (a : APDU) : Bool :=
  (a.force_extended && (decide (0 < a.lc) || decide (0 < a.le)))
    || (decide (0xff < a.lc) || decide (0x100 < a.le))

/-- Embeds `APDU.serialize` of iscctl.py: 4 masked header bytes, a reserved
zero byte in extended form, the Lc field and payload when a non-empty payload
is present, and the Le field when `le > 0`; length fields are masked to the
length-field width and written big-endian. -/
def APDU.serialize (a : APDU) : List Nat :=
  let length_field_size : Nat := if a.extended then 2 else 1
  let length_mask : Nat := if a.extended then 0xffff else 0xff
  [a.cla % 256, a.ins % 256, a.p1 % 256, a.p2 % 256]
    ++ (if a.extended then [0] else [])
    ++ (match a.payload with
        | some p =>
          if 0 < p.length then
            natToBytes (a.lc % (length_mask + 1)) length_field_size ++ p
          else []
        | none => [])
    ++ (if 0 < a.le then
          natToBytes (a.le % (length_mask + 1)) length_field_size
        else [])

/-- Encoder written from the specification's words (spec section 4.1 and the
short-form/extended-form sentence of claim C2): short form exactly when the
payload length is at most 255, the expected response length is at most 256,
and the force-extended flag is not set together with a nonzero length;
otherwise a reserved zero byte after the header and 2-byte big-endian length
fields.  Used as the comparison point for `APDU.serialize`. -/
def APDU.serializeSpec (a : APDU) : List Nat :=
  let hdr := [a.cla % 256, a.ins % 256, a.p1 % 256, a.p2 % 256]
  let shortForm : Bool :=
    decide (a.lc ≤ 255) && decide (a.le ≤ 256)
      && !(a.force_extended && (decide (0 < a.lc) || decide (0 < a.le)))
  if shortForm then
    hdr ++ (if 0 < a.lc then natToBytes a.lc 1 ++ a.payloadBytes else [])
        ++ (if 0 < a.le then natToBytes a.le 1 else [])
  else
    hdr ++ [0]
        ++ (if 0 < a.lc then natToBytes a.lc 2 ++ a.payloadBytes else [])
        ++ (if 0 < a.le then natToBytes a.le 2 else [])

example : (APDU.mk 0x80 0x44 5 0 (some [1, 2, 3]) 0 false).serialize
    = [0x80, 0x44, 5, 0, 3, 1, 2, 3] := by decide

example : (APDU.mk 0x80 0x44 5 0 none 300 false).serialize
    = [0x80, 0x44, 5, 0, 0, 1, 44] := by decide

example : (APDU.mk 0x80 0x44 5 0 none 256 false).serialize
    = [0x80, 0x44, 5, 0, 0] := by decide

lemma spec_short_iff (a : APDU) :
    (decide (a.lc ≤ 255) && decide (a.le ≤ 256)
      && !(a.force_extended && (decide (0 < a.lc) || decide (0 < a.le))))
    = !a.extended := by
  simp only [APDU.extended]
  rw [Bool.eq_iff_iff]
  cases a.force_extended
  all_goals simp
  all_goals omega

lemma natToBytes_mod_256 (x : Nat) : natToBytes (x % 256) 1 = natToBytes x 1 := by
  simp [natToBytes]

lemma natToBytes_mod_65536 (x : Nat) : natToBytes (x % 65536) 2 = natToBytes x 2 := by
  simp [natToBytes]
  omega

/-- C2: for every command, `APDU.serialize` emits the 4 masked header bytes,
uses 1-byte length fields exactly when the payload length is at most 255, the
expected response length is at most 256, and the force-extended flag is not
set together with a nonzero payload or response length, and otherwise appends
one reserved 0x00 byte after the header and uses 2-byte big-endian length
fields; the Lc field and payload appear only for a non-empty payload, and the
Le field only for a nonzero expected response length.  Stated as: the encoder
coincides with `APDU.serializeSpec`, the encoder written from the
specification's words. -/
theorem c2_serialize_length_fields (a : APDU) : a.serialize = a.serializeSpec := by
  unfold APDU.serialize APDU.serializeSpec
  rw [spec_short_iff]
  cases hext : a.extended
  · cases hp : a.payload <;>
      simp [APDU.lc, APDU.payloadBytes, hp, natToBytes_mod_256]
  · cases hp : a.payload <;>
      simp [APDU.lc, APDU.payloadBytes, hp, natToBytes_mod_65536]

/-- C10: when the payload length or the expected response length exceeds
0xffff, `APDU.serialize` emits the corresponding 2-byte length field reduced
modulo 2^16 (so the field no longer equals the actual length) while still
emitting the entire payload. -/
theorem c10_length_field_truncation (a : APDU) :
    (0xffff < a.lc →
      a.serialize = [a.cla % 256, a.ins % 256, a.p1 % 256, a.p2 % 256] ++ [0]
          ++ natToBytes (a.lc % 65536) 2 ++ a.payloadBytes
          ++ (if 0 < a.le then natToBytes (a.le % 65536) 2 else [])
        ∧ a.lc % 65536 ≠ a.lc)
  ∧ (0xffff < a.le →
      a.serialize = [a.cla % 256, a.ins % 256, a.p1 % 256, a.p2 % 256] ++ [0]
          ++ (if 0 < a.lc then natToBytes (a.lc % 65536) 2 ++ a.payloadBytes
              else [])
          ++ natToBytes (a.le % 65536) 2
        ∧ a.le % 65536 ≠ a.le) := by
  constructor
  · intro hlc
    have hext : a.extended = true := by
      simp only [APDU.extended, Bool.or_eq_true, decide_eq_true_eq]
      omega
    refine ⟨?_, by omega⟩
    unfold APDU.serialize
    cases hp : a.payload with
    | none => simp [APDU.lc, hp] at hlc
    | some p =>
      have hplen : 0 < p.length := by
        have := hlc
        simp [APDU.lc, hp] at this ⊢
        omega
      simp [hext, hp, hplen, APDU.lc, APDU.payloadBytes]
  · intro hle
    have hext : a.extended = true := by
      simp only [APDU.extended, Bool.or_eq_true, decide_eq_true_eq]
      omega
    refine ⟨?_, by omega⟩
    unfold APDU.serialize
    have hle0 : 0 < a.le := by omega
    cases hp : a.payload with
    | none => simp [hext, hp, hle0, APDU.lc, APDU.payloadBytes]
    | some p =>
      by_cases hplen : 0 < p.length
      · simp [hext, hp, hplen, hle0, APDU.lc, APDU.payloadBytes]
      · simp [hext, hp, hplen, hle0, APDU.lc, APDU.payloadBytes,
          Nat.eq_zero_of_not_pos hplen]

/-- Concrete command with both an oversized payload and an oversized
expected response length, used to instantiate `c10_length_field_truncation`. -/
def bigAPDU : APDU :=
  { cla := 0x80, ins := 0x44, p1 := 0, p2 := 0,
    payload := some (List.replicate 70000 7), le := 70000 }

/-- Witness for C10 at a concrete command: both hypotheses hold and the
emitted length fields differ from the actual lengths. -/
theorem c10_length_field_truncation_witness :
    (0xffff < bigAPDU.lc ∧ bigAPDU.lc % 65536 ≠ bigAPDU.lc)
  ∧ (0xffff < bigAPDU.le ∧ bigAPDU.le % 65536 ≠ bigAPDU.le) := by
  have h1 : 0xffff < bigAPDU.lc := by
    have : bigAPDU.lc = 70000 := by
      simp only [bigAPDU, APDU.lc, List.length_replicate]
    omega
  have h2 : 0xffff < bigAPDU.le := by
    have : bigAPDU.le = 70000 := rfl
    omega
  exact ⟨⟨h1, ((c10_length_field_truncation bigAPDU).1 h1).2⟩,
    ⟨h2, ((c10_length_field_truncation bigAPDU).2 h2).2⟩⟩

/-- Decoder for the wire format, written against the same length-field rules
as `APDU.serialize` (spec section 4.1): after the 4 header bytes, an empty
body is a header-only command, a 1-byte body is a short-form Le field, a body
starting with a nonzero byte is short form (that byte is Lc), and a body
starting with the reserved zero byte is extended form with a 2-byte
big-endian Lc or Le field.  Returns the header fields and the payload. -/
def deserialize (bs : List Nat) : Option (Nat × Nat × Nat × Nat × List Nat) :=
  match bs with
  | c :: i :: x :: y :: body =>
    match body with
    | [] => some (c, i, x, y, [])
    | [_] => some (c, i, x, y, [])
    | b0 :: rest =>
      if b0 ≠ 0 then
        if rest.length = b0 then some (c, i, x, y, rest)
        else if rest.length = b0 + 1 then some (c, i, x, y, rest.take b0)
        else none
      else
        match rest with
        | hi :: lo :: rest2 =>
          if rest2.length = 0 then some (c, i, x, y, [])
          else if rest2.length = hi * 256 + lo then some (c, i, x, y, rest2)
          else if rest2.length = hi * 256 + lo + 2 then
            some (c, i, x, y, rest2.take (hi * 256 + lo))
          else none
        | _ => none
  | _ => none

example : deserialize (APDU.mk 0x80 0x44 5 0 (some [1, 2, 3]) 0 false).serialize
    = some (0x80, 0x44, 5, 0, [1, 2, 3]) := by decide

example : deserialize (APDU.mk 0x80 0x44 5 0 (some [1, 2, 3]) 300 true).serialize
    = some (0x80, 0x44, 5, 0, [1, 2, 3]) := by decide

/-- C8: decoding the bytes produced by `APDU.serialize` with the same
length-field rules recovers the original header bytes and payload, for every
command whose payload length and expected response length fit in 16 bits. -/
theorem c8_serialize_roundtrip (a : APDU)
    (hcla : a.cla ≤ 0xff) (hins : a.ins ≤ 0xff) (hp1 : a.p1 ≤ 0xff)
    (hp2 : a.p2 ≤ 0xff) (hlc : a.lc ≤ 0xffff) (hle : a.le ≤ 0xffff) :
    deserialize a.serialize = some (a.cla, a.ins, a.p1, a.p2, a.payloadBytes) := by
  have hmc : a.cla % 256 = a.cla := Nat.mod_eq_of_lt (by omega)
  have hmi : a.ins % 256 = a.ins := Nat.mod_eq_of_lt (by omega)
  have hm1 : a.p1 % 256 = a.p1 := Nat.mod_eq_of_lt (by omega)
  have hm2 : a.p2 % 256 = a.p2 := Nat.mod_eq_of_lt (by omega)
  cases hext : a.extended with
  | false =>
    have hextb : a.extended = false := hext
    simp [APDU.extended] at hext
    obtain ⟨-, hlc255, hle256⟩ := hext
    cases hp : a.payload with
    | none =>
      by_cases hle0 : 0 < a.le
      · have hmle : a.le % 256 = a.le % 256 := rfl
        simp [APDU.serialize, APDU.payloadBytes, hextb, hp, hle0, natToBytes,
          deserialize, hmc, hmi, hm1, hm2]
      · simp [APDU.serialize, APDU.payloadBytes, hextb, hp, hle0,
          deserialize, hmc, hmi, hm1, hm2]
    | some p =>
      cases p with
      | nil =>
        by_cases hle0 : 0 < a.le
        · simp [APDU.serialize, APDU.payloadBytes, hextb, hp, hle0, natToBytes,
            deserialize, hmc, hmi, hm1, hm2]
        · simp [APDU.serialize, APDU.payloadBytes, hextb, hp, hle0,
            deserialize, hmc, hmi, hm1, hm2]
      | cons b p' =>
        have hlcv : a.lc = (b :: p').length := by simp [APDU.lc, hp]
        have hlcm : a.lc % 256 = a.lc := Nat.mod_eq_of_lt (by omega)
        have hlc0 : 0 < a.lc := by rw [hlcv]; simp
        by_cases hle0 : 0 < a.le
        · simp only [APDU.serialize, APDU.payloadBytes, hextb, hp, hle0,
            natToBytes, hmc, hmi, hm1, hm2, hlcm, if_true, if_false,
            Bool.false_eq_true, ite_false, ite_true, Option.getD_some,
            List.nil_append, List.cons_append, List.append_nil, hlc0]
          rw [hlcv]
          simp [deserialize, List.take_left]
        · simp only [APDU.serialize, APDU.payloadBytes, hextb, hp, hle0,
            natToBytes, hmc, hmi, hm1, hm2, hlcm, if_true, if_false,
            Bool.false_eq_true, ite_false, ite_true, Option.getD_some,
            List.nil_append, List.cons_append, List.append_nil, hlc0]
          rw [hlcv]
          simp [deserialize]
  | true =>
    have hextb : a.extended = true := hext
    cases hp : a.payload with
    | none =>
      have hle0 : 0 < a.le := by
        simp [APDU.extended, APDU.lc, hp] at hext
        omega
      have hnb : natToBytes (a.le % 65536) 2 = [a.le / 256, a.le % 256] := by
        simp [natToBytes]
        omega
      simp [APDU.serialize, APDU.payloadBytes, hextb, hp, hle0, hnb,
        deserialize, hmc, hmi, hm1, hm2]
    | some p =>
      cases p with
      | nil =>
        have hle0 : 0 < a.le := by
          simp [APDU.extended, APDU.lc, hp] at hext
          omega
        have hnb : natToBytes (a.le % 65536) 2 = [a.le / 256, a.le % 256] := by
          simp [natToBytes]
          omega
        simp [APDU.serialize, APDU.payloadBytes, hextb, hp, hle0, hnb,
          deserialize, hmc, hmi, hm1, hm2]
      | cons b p' =>
        have hlcv : a.lc = (b :: p').length := by simp [APDU.lc, hp]
        have hnb : natToBytes (a.lc % 65536) 2 = [a.lc / 256, a.lc % 256] := by
          simp [natToBytes]
          omega
        by_cases hle0 : 0 < a.le
        · have hnbe : natToBytes (a.le % 65536) 2 = [a.le / 256, a.le % 256] := by
            simp [natToBytes]
            omega
          simp only [APDU.serialize, APDU.payloadBytes, hextb, hp, hle0, hnb,
            hnbe, if_true, if_false, Bool.false_eq_true, ite_false, ite_true,
            Option.getD_some, List.nil_append, List.cons_append, List.append_nil,
            hmc, hmi, hm1, hm2]
          generalize hhi : a.lc / 256 = hi
          generalize hlo : a.lc % 256 = lo
          have h : hi * 256 + lo = (b :: p').length := by
            rw [← hhi, ← hlo, ← hlcv]
            omega
          simp [deserialize, h, List.take_left]
        · simp only [APDU.serialize, APDU.payloadBytes, hextb, hp, hle0, hnb,
            if_true, if_false, Bool.false_eq_true, ite_false, ite_true,
            Option.getD_some, List.nil_append, List.cons_append, List.append_nil,
            hmc, hmi, hm1, hm2]
          generalize hhi : a.lc / 256 = hi
          generalize hlo : a.lc % 256 = lo
          have h : hi * 256 + lo = (b :: p').length := by
            rw [← hhi, ← hlo, ← hlcv]
            omega
          simp [deserialize, h]

/-- Witness for C8: the round trip at a concrete command (payload `[1,2,3]`,
expected response length 300, which selects extended form). -/
theorem c8_serialize_roundtrip_witness :
    deserialize (APDU.mk 0x80 0x44 2 9 (some [1, 2, 3]) 300 false).serialize
      = some (0x80, 0x44, 2, 9, [1, 2, 3]) :=
  c8_serialize_roundtrip (APDU.mk 0x80 0x44 2 9 (some [1, 2, 3]) 300 false)
    (by decide) (by decide) (by decide) (by decide) (by decide) (by decide)

/-- Size in bytes of `DS4FullKeyBlock` (identity 0x210 + signature 0x100 +
private key 5 * 0x80 = 1424), embedding `sizeof(DS4FullKeyBlock)`. -/
def sizeof_DS4FullKeyBlock : Nat := 1424

/-- Size in bytes of `DS4Response` (signature 0x100 + signed identity 0x310
= 1040), embedding `sizeof(DS4Response)`. -/
def sizeof_DS4Response : Nat := 1040

/-- Byte range `[off, off+len)` of a buffer. -/
def fieldBytes (buf : List Nat) (off len : Nat) : List Nat :=
  (buf.drop off).take len

/-- Decoded `DS4FullKeyBlock` (ctypes struct of iscctl.py): the identity
record (serial, modulus, exponent), the issuer signature, and the private
key CRT fields, each a fixed-width byte array. -/
structure DS4FullKeyBlock where
  serial : List Nat
  modulus : List Nat
  exponent : List Nat
  sig_identity : List Nat
  p : List Nat
  q : List Nat
  dp1 : List Nat
  dq1 : List Nat
  pq : List Nat
  deriving Repr, DecidableEq

/-- Field extraction at the packed (`_pack_ = 1`) struct offsets of
`DS4FullKeyBlock`: serial at 0 (16 bytes), modulus at 16 (256), exponent at
272 (256), issuer signature at 528 (256), then p, q, dp1, dq1, pq
(128 bytes each) from offset 784. -/
def decodeDS4FullKey (buf : List Nat) : DS4FullKeyBlock where
  serial := fieldBytes buf 0 16
  modulus := fieldBytes buf 16 256
  exponent := fieldBytes buf 272 256
  sig_identity := fieldBytes buf 528 256
  p := fieldBytes buf 784 128
  q := fieldBytes buf 912 128
  dp1 := fieldBytes buf 1040 128
  dq1 := fieldBytes buf 1168 128
  pq := fieldBytes buf 1296 128

/-- The record decoded from the first `sizeof(DS4FullKeyBlock)` bytes a file
provides (`f.readinto(ds4key)` fills the zero-initialised struct with at
most that many bytes; when the file is at least that long the struct equals
the file's prefix). -/
def ds4keyOf (file : List Nat) : DS4FullKeyBlock :=
  decodeDS4FullKey (file.take sizeof_DS4FullKeyBlock)

/-- Models pycryptodome's `Integer.inverse(a, n)`: the unique inverse of `a`
in `[0, n)` when `a` is invertible modulo `n`, and `none` when no inverse
exists (ValueError) or the modulus is zero (ZeroDivisionError). -/
def natInverse (a n : Nat) : Option Nat :=
  (List.range n).find? (fun y => a * y % n == 1 % n)

/-- Errors `_load_ds4key_and_check` can raise.  `inverseFailure` merges the
ValueError / ZeroDivisionError raised inside `Integer.inverse` (no inverse,
zero or negative modulus); `constructFailure` is a ValueError raised by
pycryptodome `RSA.construct` with `consistency_check=True`. -/
inductive DS4KeyError
  | tooSmall
  | oversizedExponent
  | inverseFailure
  | badKeyBlock
  | constructFailure
  deriving Repr, DecidableEq

/-- Models the `consistency_check=True` validation of pycryptodome
`RSA.construct((n, e, d, p, q))`: the CRT coefficient u = p^-1 mod q must
exist, n must be odd and the product of the two prime factors, e and d must
lie in (1, n) and be coprime to n, e*d must be 1 modulo lcm(p-1, q-1), and
u must satisfy 1 < u < q with p*u = 1 mod q.  Primality testing is modelled
as exact primality (the library's probabilistic test always accepts a true
prime). -/
def RSA_construct_check (n e d p q : Nat) : Bool :=
  match natInverse p q with
  | none => false
  | some u =>
    decide (1 < e) && decide (e < n) && decide (Nat.gcd n e = 1)
    && decide (n % 2 = 1)
    && decide (1 < d) && decide (d < n) && decide (Nat.gcd n d = 1)
    && decide (p * q = n)
    && decide (Nat.Prime p) && decide (Nat.Prime q)
    && decide ((e * d) % ((p - 1) * (q - 1) / Nat.gcd (p - 1) (q - 1)) = 1)
    && decide (1 < u) && decide (u < q)
    && decide ((p * u) % q = 1)

/-- Embeds the body of `_load_ds4key_and_check` after the size gate
(iscctl.py lines 243-267).  Python's `p-1`, `q-1` on arbitrary decoded
integers can be negative where Nat subtraction truncates to 0; in every such
case Python raises inside `Integer.inverse` (negative or zero modulus)
exactly where this embedding returns `inverseFailure`, so the observable
result agrees for all inputs.  The SHA-256 fingerprints computed on success
are display-only and omitted; the function returns the record and the
`oversized_e` flag as the source does. -/
def check_ds4key (ds4key : DS4FullKeyBlock) (allow_oversized_e : Bool) :
    Except DS4KeyError (DS4FullKeyBlock × Bool) :=
  let n := bytes_to_long ds4key.modulus
  let e := bytes_to_long ds4key.exponent
  let p := bytes_to_long ds4key.p
  let q := bytes_to_long ds4key.q
  let dp1 := bytes_to_long ds4key.dp1
  let dq1 := bytes_to_long ds4key.dq1
  let pq := bytes_to_long ds4key.pq
  if 0xffffffff < e ∧ allow_oversized_e = true then
    .error .oversizedExponent
  else
    let oversized_e : Bool := decide (0xffffffff < e)
    match natInverse e ((p - 1) * (q - 1)) with
    | none => .error .inverseFailure
    | some d =>
      match natInverse q p with
      | none => .error .inverseFailure
      | some pq_from_pq =>
        if pq ≠ pq_from_pq ∨ dp1 ≠ d % (p - 1) ∨ dq1 ≠ d % (q - 1) then
          .error .badKeyBlock
        else if RSA_construct_check n e d p q then
          .ok (ds4key, oversized_e)
        else
          .error .constructFailure

/-- Embeds `_load_ds4key_and_check` (iscctl.py lines 234-267): read at most
`sizeof(DS4FullKeyBlock)` bytes from the file into the zero-initialised
record, raise when fewer bytes were read, then run the checks of
`check_ds4key`. -/
def load_ds4key_and_check (file : List Nat) (allow_oversized_e : Bool) :
    Except DS4KeyError (DS4FullKeyBlock × Bool) :=
  if min file.length sizeof_DS4FullKeyBlock ≠ sizeof_DS4FullKeyBlock then
    .error .tooSmall
  else
    check_ds4key (ds4keyOf file) allow_oversized_e

/-- Whether an `Except` result is a success. -/
def exceptOk {ε α : Type} : Except ε α → Bool
  | .ok _ => true
  | .error _ => false

/-- A 1424-byte DS4Key image holding a small but fully consistent RSA key:
n = 55 = 5 * 11, e = 3, d = 27, dp1 = 27 mod 4 = 3, dq1 = 27 mod 10 = 7,
pq = 11^-1 mod 5 = 1.  All fields are big-endian in their fixed-width
slots; the issuer signature is not examined by the loader. -/
def goodKeyBytes : List Nat :=
  List.replicate 16 0
    ++ (List.replicate 255 0 ++ [55])
    ++ (List.replicate 255 0 ++ [3])
    ++ List.replicate 256 0
    ++ (List.replicate 127 0 ++ [5])
    ++ (List.replicate 127 0 ++ [11])
    ++ (List.replicate 127 0 ++ [3])
    ++ (List.replicate 127 0 ++ [7])
    ++ (List.replicate 127 0 ++ [1])

/-- A 1424-byte DS4Key image whose public exponent field holds 2^32, one
above the 32-bit range; every other field is zero. -/
def oversizedKeyBytes : List Nat :=
  List.replicate 272 0
    ++ (List.replicate 251 0 ++ [1, 0, 0, 0, 0])
    ++ List.replicate 896 0

set_option maxRecDepth 40000 in
example : goodKeyBytes.length = 1424 := by decide

set_option maxRecDepth 40000 in
example : oversizedKeyBytes.length = 1424 := by decide

set_option maxRecDepth 40000 in
example : bytes_to_long (ds4keyOf goodKeyBytes).exponent = 3 := by decide

set_option maxRecDepth 40000 in
example : exceptOk (load_ds4key_and_check goodKeyBytes false) = true := by decide

lemma list_find?_unique {p : Nat → Bool} {y : Nat} (l : List Nat)
    (hmem : y ∈ l) (hpy : p y = true)
    (huniq : ∀ z ∈ l, p z = true → z = y) : l.find? p = some y := by
  induction l with
  | nil => cases hmem
  | cons a l ih =>
    by_cases hpa : p a = true
    · have hay : a = y := huniq a (List.mem_cons_self a l) hpa
      subst hay
      simp [List.find?, hpa]
    · have hay : a ≠ y := fun h => hpa (h ▸ hpy)
      have hmem' : y ∈ l := by
        rcases List.mem_cons.mp hmem with h | h
        · exact absurd h.symm hay
        · exact h
      rw [List.find?_cons_of_neg _ hpa]
      exact ih hmem' fun z hz hpz => huniq z (List.mem_cons_of_mem a hz) hpz

/-- `natInverse` returns exactly the modular inverse: whenever `y < n` and
`a * y` is congruent to 1 modulo `n`, the computed inverse is `y` (modular
inverses are unique below the modulus). -/
lemma natInverse_eq_some {a n y : Nat} (hy : y < n) (h : a * y % n = 1 % n) :
    natInverse a n = some y := by
  unfold natInverse
  apply list_find?_unique
  · exact List.mem_range.mpr hy
  · simp [h]
  · intro z hz hpz
    have hzlt : z < n := List.mem_range.mp hz
    have hz' : a * z % n = 1 % n := by simpa using hpz
    have h1 : Nat.ModEq n (a * y) 1 := h
    have h2 : Nat.ModEq n (a * z) 1 := hz'
    have hmod : Nat.ModEq n z y := by
      calc z = z * 1 := by ring
        _ ≡ z * (a * y) [MOD n] := (h1.mul_left z).symm
        _ = (a * z) * y := by ring
        _ ≡ 1 * y [MOD n] := h2.mul_right y
        _ = y := by ring
    calc z = z % n := (Nat.mod_eq_of_lt hzlt).symm
      _ = y % n := hmod
      _ = y := Nat.mod_eq_of_lt hy

/-- `check_ds4key` can fail only on checks performed after the size gate, so
it never reports the undersized-file error. -/
lemma check_ds4key_ne_tooSmall (k : DS4FullKeyBlock) (allow : Bool) :
    check_ds4key k allow ≠ Except.error DS4KeyError.tooSmall := by
  unfold check_ds4key
  dsimp only
  split
  · simp
  · split
    · simp
    · split
      · simp
      · split
        · simp
        · split <;> simp

/-- C6 (amended): loading a Full Key Record from a file fails with the size
error exactly when the file provides fewer than the record's 1424 bytes; a
larger file is not rejected, its first 1424 bytes are simply used. -/
theorem c6_size_gate (file : List Nat) (allow : Bool) :
    load_ds4key_and_check file allow = Except.error DS4KeyError.tooSmall
      ↔ file.length < 1424 := by
  unfold load_ds4key_and_check
  by_cases h : file.length < 1424
  · rw [if_pos (by simp [sizeof_DS4FullKeyBlock]; omega)]
    simp [h]
  · rw [if_neg (by simp [sizeof_DS4FullKeyBlock]; omega)]
    simp [h, check_ds4key_ne_tooSmall]

deriving instance DecidableEq for Except

set_option maxRecDepth 40000 in
/-- C6 (counterexample): a 1425-byte file — larger than the record — is NOT
rejected: the loader reads its first 1424 bytes and succeeds, refuting the
claim that any size other than 1424 fails. -/
theorem c6_larger_file_accepted :
    (goodKeyBytes ++ [0]).length = 1425
      ∧ exceptOk (load_ds4key_and_check (goodKeyBytes ++ [0]) false) = true := by
  constructor
  · decide
  · decide

set_option maxRecDepth 40000 in
/-- C1 (code behaviour at the failing input): for a record whose exponent is
2^32 (one above the 32-bit range), `_load_ds4key_and_check` raises the
oversized-exponent error precisely when `allow_oversized_e` is True, and
merely flags (then fails later on the all-zero CRT fields, not on the
exponent) when the flag is False — the reverse of the claimed and documented
behaviour of the compatibility flag. -/
theorem c1_oversize_flag_inverted :
    load_ds4key_and_check oversizedKeyBytes true
        = Except.error DS4KeyError.oversizedExponent
      ∧ load_ds4key_and_check oversizedKeyBytes false
        = Except.error DS4KeyError.inverseFailure := by
  constructor
  · decide
  · decide

/-- C3: for a Full Key Record of the fixed 1424-byte size whose decoded
exponent e is invertible modulo (p-1)(q-1) (d below being that inverse, and
piq being q^-1 mod p), `_load_ds4key_and_check` raises the key-inconsistency
error if and only if the stored pq differs from q^-1 mod p, or the stored
dp1 differs from d mod (p-1), or the stored dq1 differs from d mod (q-1),
with all fields read as big-endian unsigned integers.  In particular a
correctly derived record passes this check and changing any of the compared
CRT values makes it fail. -/
theorem c3_crt_check_iff (file : List Nat) (d piq : Nat)
    (hlen : file.length = 1424)
    (hd : bytes_to_long (ds4keyOf file).exponent * d
          % ((bytes_to_long (ds4keyOf file).p - 1)
              * (bytes_to_long (ds4keyOf file).q - 1))
        = 1 % ((bytes_to_long (ds4keyOf file).p - 1)
              * (bytes_to_long (ds4keyOf file).q - 1)))
    (hdlt : d < (bytes_to_long (ds4keyOf file).p - 1)
              * (bytes_to_long (ds4keyOf file).q - 1))
    (hq : bytes_to_long (ds4keyOf file).q * piq % bytes_to_long (ds4keyOf file).p
        = 1 % bytes_to_long (ds4keyOf file).p)
    (hqlt : piq < bytes_to_long (ds4keyOf file).p) :
    (load_ds4key_and_check file false = Except.error DS4KeyError.badKeyBlock
      ↔ bytes_to_long (ds4keyOf file).pq ≠ piq
        ∨ bytes_to_long (ds4keyOf file).dp1
            ≠ d % (bytes_to_long (ds4keyOf file).p - 1)
        ∨ bytes_to_long (ds4keyOf file).dq1
            ≠ d % (bytes_to_long (ds4keyOf file).q - 1)) := by
  unfold load_ds4key_and_check
  rw [if_neg (by simp [sizeof_DS4FullKeyBlock, hlen])]
  unfold check_ds4key
  dsimp only
  rw [if_neg (by simp)]
  rw [natInverse_eq_some hdlt hd, natInverse_eq_some hqlt hq]
  by_cases hcond : bytes_to_long (ds4keyOf file).pq ≠ piq
      ∨ bytes_to_long (ds4keyOf file).dp1
          ≠ d % (bytes_to_long (ds4keyOf file).p - 1)
      ∨ bytes_to_long (ds4keyOf file).dq1
          ≠ d % (bytes_to_long (ds4keyOf file).q - 1)
  · simp only [if_pos hcond]
    simp [hcond]
  · simp only [if_neg hcond]
    simp only [iff_false, hcond]
    split <;> simp [hcond]

set_option maxRecDepth 40000 in
/-- Witness for C3 at the concrete record `goodKeyBytes` (p = 5, q = 11,
e = 3, d = 27, piq = 1): all hypotheses hold and the record passes the CRT
check, so the loader does not raise the key-inconsistency error. -/
theorem c3_crt_check_iff_witness :
    goodKeyBytes.length = 1424
  ∧ bytes_to_long (ds4keyOf goodKeyBytes).exponent * 27
        % ((bytes_to_long (ds4keyOf goodKeyBytes).p - 1)
            * (bytes_to_long (ds4keyOf goodKeyBytes).q - 1))
      = 1 % ((bytes_to_long (ds4keyOf goodKeyBytes).p - 1)
            * (bytes_to_long (ds4keyOf goodKeyBytes).q - 1))
  ∧ 27 < (bytes_to_long (ds4keyOf goodKeyBytes).p - 1)
            * (bytes_to_long (ds4keyOf goodKeyBytes).q - 1)
  ∧ bytes_to_long (ds4keyOf goodKeyBytes).q * 1
        % bytes_to_long (ds4keyOf goodKeyBytes).p
      = 1 % bytes_to_long (ds4keyOf goodKeyBytes).p
  ∧ 1 < bytes_to_long (ds4keyOf goodKeyBytes).p
  ∧ (load_ds4key_and_check goodKeyBytes false
        = Except.error DS4KeyError.badKeyBlock
      ↔ bytes_to_long (ds4keyOf goodKeyBytes).pq ≠ 1
        ∨ bytes_to_long (ds4keyOf goodKeyBytes).dp1
            ≠ 27 % (bytes_to_long (ds4keyOf goodKeyBytes).p - 1)
        ∨ bytes_to_long (ds4keyOf goodKeyBytes).dq1
            ≠ 27 % (bytes_to_long (ds4keyOf goodKeyBytes).q - 1)) :=
  ⟨by decide, by decide, by decide, by decide, by decide,
    c3_crt_check_iff goodKeyBytes 27 1 (by decide) (by decide) (by decide)
      (by decide) (by decide)⟩

/-- Command class `ISCCLA.auth`. -/
def ISCCLA_auth : Nat := 0x80

/-- Command class `ISCCLA.config`. -/
def ISCCLA_config : Nat := 0x90

/-- Instruction `ISCAuthINS.set_challenge`. -/
def ISCAuthINS_set_challenge : Nat := 0x44

/-- Instruction `ISCAuthINS.get_response`. -/
def ISCAuthINS_get_response : Nat := 0x46

/-- Instruction `ISCConfigINS.import_`. -/
def ISCConfigINS_import_ : Nat := 0x10

/-- Sub-type code `ISCImportType.pub_e`. -/
def ISCImportType_pub_e : Nat := 0x02

/-- Sub-type code `ISCImportType.pub_e_compat`. -/
def ISCImportType_pub_e_compat : Nat := 0x83

/-- Embeds the exponent-import step of `do_import_ds4key` (iscctl.py lines
493-497): when `oversized_e` is set the full 256-byte exponent field
goes under sub-type `pub_e`, otherwise only its last 4 bytes
(`exponent[-4:]`) under sub-type `pub_e_compat`; the sub-type code travels
in parameter 1. -/
def import_exponent_apdu (ds4key : DS4FullKeyBlock) (oversized_e : Bool) : APDU :=
  if oversized_e then
    { cla := ISCCLA_config, ins := ISCConfigINS_import_,
      p1 := ISCImportType_pub_e, p2 := 0x00, payload := some ds4key.exponent }
  else
    { cla := ISCCLA_config, ins := ISCConfigINS_import_,
      p1 := ISCImportType_pub_e_compat, p2 := 0x00,
      payload := some (ds4key.exponent.drop (ds4key.exponent.length - 4)) }

/-- A successful load returns the very record decoded from the file. -/
lemma check_ds4key_ok_record (r : DS4FullKeyBlock) (a : Bool)
    (k : DS4FullKeyBlock) (ov : Bool)
    (h : check_ds4key r a = Except.ok (k, ov)) : k = r := by
  unfold check_ds4key at h
  dsimp only at h
  split at h
  · cases h
  · split at h
    · cases h
    · split at h
      · cases h
      · split at h
        · cases h
        · split at h
          · injection h with h'
            exact congrArg Prod.fst h'.symm
          · cases h

/-- The exponent field of a successfully loaded record is 256 bytes wide. -/
lemma exponent_length_of_load (file : List Nat) (a : Bool)
    (k : DS4FullKeyBlock) (ov : Bool)
    (h : load_ds4key_and_check file a = Except.ok (k, ov)) :
    k.exponent.length = 256 := by
  unfold load_ds4key_and_check at h
  split at h
  · cases h
  · next hg =>
    have hlen : 1424 ≤ file.length := by
      simp [sizeof_DS4FullKeyBlock] at hg
      omega
    have hk := check_ds4key_ok_record _ _ _ _ h
    subst hk
    simp [ds4keyOf, decodeDS4FullKey, fieldBytes, sizeof_DS4FullKeyBlock,
      List.length_take, List.length_drop]
    omega

/-- C7 (amended): for a key loaded by `_load_ds4key_and_check`, the
exponent step uses sub-type code `pub_e_compat` (0x83) carrying only the last
4 bytes of the 256-byte exponent field when the exponent was not flagged
oversized, and sub-type code `pub_e` (0x02 — not 0x01, which is `pub_n`)
carrying the full 256-byte field when it was flagged oversized. -/
theorem c7_exponent_import (file : List Nat) (allow : Bool)
    (k : DS4FullKeyBlock) (ov : Bool)
    (hload : load_ds4key_and_check file allow = Except.ok (k, ov)) :
    (import_exponent_apdu k ov).cla = 0x90
  ∧ (import_exponent_apdu k ov).ins = 0x10
  ∧ (import_exponent_apdu k ov).p1 = (if ov then 0x02 else 0x83)
  ∧ (import_exponent_apdu k ov).payloadBytes
      = (if ov then k.exponent else k.exponent.drop 252)
  ∧ (import_exponent_apdu k ov).lc = (if ov then 256 else 4) := by
  have hexp := exponent_length_of_load file allow k ov hload
  cases ov <;>
    simp [import_exponent_apdu, ISCCLA_config, ISCConfigINS_import_,
      ISCImportType_pub_e, ISCImportType_pub_e_compat, APDU.payloadBytes,
      APDU.lc, hexp]

set_option maxRecDepth 40000 in
/-- Witness for C7: the record loaded from `goodKeyBytes` (not oversized)
goes through the compact path with sub-type 0x83 and a 4-byte payload. -/
theorem c7_exponent_import_witness :
    load_ds4key_and_check goodKeyBytes false
        = Except.ok (ds4keyOf goodKeyBytes, false)
  ∧ (import_exponent_apdu (ds4keyOf goodKeyBytes) false).cla = 0x90
  ∧ (import_exponent_apdu (ds4keyOf goodKeyBytes) false).ins = 0x10
  ∧ (import_exponent_apdu (ds4keyOf goodKeyBytes) false).p1 = 0x83
  ∧ (import_exponent_apdu (ds4keyOf goodKeyBytes) false).payloadBytes
      = (ds4keyOf goodKeyBytes).exponent.drop 252
  ∧ (import_exponent_apdu (ds4keyOf goodKeyBytes) false).lc = 4 := by
  have hload : load_ds4key_and_check goodKeyBytes false
      = Except.ok (ds4keyOf goodKeyBytes, false) := by decide
  have h := c7_exponent_import goodKeyBytes false (ds4keyOf goodKeyBytes)
    false hload
  simp only [if_neg Bool.false_ne_true] at h
  exact ⟨hload, h.1, h.2.1, h.2.2.1, h.2.2.2.1, h.2.2.2.2⟩

set_option maxRecDepth 40000 in
/-- C7 (counterexample): in the oversized branch the emitted sub-type code
is 0x02 (`pub_e`), not 0x01 as the claim states (0x01 is `pub_n`, the
modulus sub-type). -/
theorem c7_pub_e_code_is_two :
    (import_exponent_apdu (ds4keyOf oversizedKeyBytes) true).p1 = 0x02
      ∧ (0x02 : Nat) ≠ 0x01 := by
  constructor
  · decide
  · decide

/-- The three identity-verification levels of `test-auth`
(`--id-verification` choices). -/
inductive IdVerification
  | skip
  | warn
  | strict
  deriving Repr, DecidableEq

/-- Observable verification events printed by `do_test_auth`:
the missing-issuer warning of `_load_key_and_check`, the unofficial-issuer
notice, the hop-1 result (`ID OK.` / `ID NG.`) and the hop-2 result
(`Response OK.` / `Response NG.`). -/
inductive AuthEvent
  | warnNoCA
  | caNotOfficial
  | hop1 (ok : Bool)
  | hop2 (ok : Bool)
  deriving Repr, DecidableEq

/-- Embeds the verification control flow of `do_test_auth` (iscctl.py lines
389-401 and 452-471) as the sequence of verification events it produces.
The issuer key is abstracted to whether its file exists (`_load_key_and_check`
returns no key and prints a warning otherwise) and whether its fingerprint
matches; the two signature checks are abstracted to their outcomes
`hop1_ok` (issuer signature over the identity record) and `hop2_ok` (device
signature over the nonce digest).  A `return` in the source truncates the
event list. -/
def do_test_auth_trace (id_verification : IdVerification)
    (ca_file_exists ca_is_official hop1_ok hop2_ok : Bool) : List AuthEvent :=
  let caLoaded : Bool :=
    decide (id_verification ≠ IdVerification.skip) && ca_file_exists
  let warnEvents : List AuthEvent :=
    if id_verification ≠ IdVerification.skip ∧ ca_file_exists = false then
      [AuthEvent.warnNoCA]
    else []
  let effective : IdVerification :=
    if caLoaded = false then IdVerification.skip else id_verification
  let officialEvents : List AuthEvent :=
    if caLoaded = true ∧ ca_is_official = false then
      [AuthEvent.caNotOfficial]
    else []
  warnEvents ++ officialEvents ++
    (if effective ≠ IdVerification.skip then
      (if hop1_ok then
        [AuthEvent.hop1 true, AuthEvent.hop2 hop2_ok]
      else if effective = IdVerification.strict then
        [AuthEvent.hop1 false]
      else
        [AuthEvent.hop1 false, AuthEvent.hop2 hop2_ok])
    else [AuthEvent.hop2 hop2_ok])

/-- Whether hop 1 (issuer signature) was evaluated in a trace. -/
def hasHop1 (t : List AuthEvent) : Bool :=
  t.any fun e => match e with
    | AuthEvent.hop1 _ => true
    | _ => false

/-- Whether hop 2 (device signature over the nonce) was evaluated. -/
def hasHop2 (t : List AuthEvent) : Bool :=
  t.any fun e => match e with
    | AuthEvent.hop2 _ => true
    | _ => false

/-- C4: with the issuer key available, skip mode never evaluates hop 1 yet
still reports hop 2; warn mode evaluates both hops regardless of hop 1's
outcome; strict mode stops right after a hop 1 failure, before hop 2; and a
hop 2 failure is merely reported — it changes only the reported flag, never
truncating the session's event sequence. -/
theorem c4_verification_modes (off h1 h2 : Bool) :
    hasHop1 (do_test_auth_trace IdVerification.skip true off h1 h2) = false
  ∧ hasHop2 (do_test_auth_trace IdVerification.skip true off h1 h2) = true
  ∧ hasHop1 (do_test_auth_trace IdVerification.warn true off h1 h2) = true
  ∧ hasHop2 (do_test_auth_trace IdVerification.warn true off h1 h2) = true
  ∧ do_test_auth_trace IdVerification.strict true off false h2
      = (if off then [] else [AuthEvent.caNotOfficial]) ++ [AuthEvent.hop1 false]
  ∧ hasHop2 (do_test_auth_trace IdVerification.strict true off false h2) = false
  ∧ (∀ m : IdVerification,
      AuthEvent.hop2 h2 ∈ do_test_auth_trace m true off h1 h2
        ↔ hasHop2 (do_test_auth_trace m true off h1 h2) = true)
  ∧ (∀ m : IdVerification,
      (do_test_auth_trace m true off h1 false).length
        = (do_test_auth_trace m true off h1 true).length) := by
  refine ⟨?_, ?_, ?_, ?_, ?_, ?_, ?_, ?_⟩ <;>
    (try intro m) <;> (try cases m) <;>
    cases off <;> cases h1 <;> cases h2 <;> decide

/-- C9 (counterexample): with the issuer key file missing and skip mode
requested, no warning is printed at all — `_load_key_and_check` is never
called — refuting the claim that a warning is printed for every requested
mode. -/
theorem c9_skip_mode_no_warning :
    AuthEvent.warnNoCA
      ∉ do_test_auth_trace IdVerification.skip false true true true := by
  decide

/-- C9 (amended): when the issuer public-key file does not exist, every
requested mode behaves as skip: hop 1 is never evaluated and hop 2 is still
evaluated and reported without blocking; for warn and strict — where the
load is attempted — the missing-issuer warning is printed, while under a
requested skip the key is never loaded and no warning appears; the
unofficial-issuer notice never appears. -/
theorem c9_missing_ca_downgrade (m : IdVerification) (off h1 h2 : Bool) :
    hasHop1 (do_test_auth_trace m false off h1 h2) = false
  ∧ hasHop2 (do_test_auth_trace m false off h1 h2) = true
  ∧ AuthEvent.warnNoCA ∈ do_test_auth_trace IdVerification.warn false off h1 h2
  ∧ AuthEvent.warnNoCA ∈ do_test_auth_trace IdVerification.strict false off h1 h2
  ∧ AuthEvent.warnNoCA ∉ do_test_auth_trace IdVerification.skip false off h1 h2
  ∧ AuthEvent.caNotOfficial ∉ do_test_auth_trace m false off h1 h2 := by
  cases m <;> cases off <;> cases h1 <;> cases h2 <;> decide

/-- Embeds the outbound nonce-paging loop of `do_test_auth` (iscctl.py lines
414-425): while the stream has not been fully consumed, read the next chunk
(everything at once when the page size is 0, else at most `page_size`
bytes) and transmit `set_challenge` with parameter-1 = the page size and
parameter-2 = the page index, which starts at 0 and is incremented once per
exchange.  Returns the (p1, p2, payload) triple of each exchange. -/
def set_challenge_pages (page_size : Nat) (rest : List Nat) (page : Nat) :
    List (Nat × Nat × List Nat) :=
  if h : rest = [] then []
  else if page_size = 0 then [(page_size, page, rest)]
  else
    (page_size, page, rest.take page_size)
      :: set_challenge_pages page_size (rest.drop page_size) (page + 1)
termination_by rest.length
decreasing_by
  simp only [List.length_drop]
  have h1 : 0 < rest.length := List.length_pos.mpr h
  omega

/-- Embeds the inbound response-paging loop of `do_test_auth` (iscctl.py
lines 427-437) under the assumption — stated by the claim — that every
successful exchange returns exactly the requested number of bytes: while
fewer than `total` bytes have accumulated, request `le` bytes (`total` when
the page size is 0, else at most `page_size`) via `get_response` with
parameter-1 = the page size and parameter-2 = the page index.  Returns the
(p1, p2, le) triple of each exchange. -/
def get_response_pages (page_size total got page : Nat) :
    List (Nat × Nat × Nat) :=
  if hlt : got < total then
    let le := if page_size = 0 then total else min (total - got) page_size
    (page_size, page, le) :: get_response_pages page_size total (got + le) (page + 1)
  else []
termination_by total - got
decreasing_by
  by_cases hp : page_size = 0 <;> simp [hp] <;> omega

/-- One step of the ceiling count: consuming one page of size `P` from
`len` remaining bytes reduces the page count by exactly one. -/
lemma ceil_div_step (P len : Nat) (hP : 0 < P) (hlen : 0 < len) :
    (len + P - 1) / P = ((len - P) + P - 1) / P + 1 := by
  rcases le_or_lt len P with h | h
  · have h1 : len - P = 0 := by omega
    have h2 : len + P - 1 = (len - 1) + P := by omega
    rw [h1, h2, Nat.add_div_right _ hP, Nat.div_eq_of_lt (by omega),
      Nat.div_eq_of_lt (by omega)]
  · have h2 : len + P - 1 = ((len - P) + P - 1) + P := by omega
    rw [h2, Nat.add_div_right _ hP]

/-- Full characterisation of the outbound paging loop for a positive page
size: page count, parameters, per-page bound and reassembly. -/
lemma set_challenge_pages_spec (P : Nat) (hP : 0 < P) :
    ∀ rest page,
      ((set_challenge_pages P rest page).length = (rest.length + P - 1) / P)
    ∧ (∀ pg ∈ set_challenge_pages P rest page, pg.1 = P ∧ pg.2.2.length ≤ P)
    ∧ ((set_challenge_pages P rest page).map (fun pg => pg.2.1)
        = List.range' page ((rest.length + P - 1) / P))
    ∧ (((set_challenge_pages P rest page).map fun pg => pg.2.2).flatten
        = rest) := by
  suffices H : ∀ n rest page, rest.length = n →
      ((set_challenge_pages P rest page).length = (rest.length + P - 1) / P)
    ∧ (∀ pg ∈ set_challenge_pages P rest page, pg.1 = P ∧ pg.2.2.length ≤ P)
    ∧ ((set_challenge_pages P rest page).map (fun pg => pg.2.1)
        = List.range' page ((rest.length + P - 1) / P))
    ∧ (((set_challenge_pages P rest page).map fun pg => pg.2.2).flatten
        = rest) by
    intro rest page
    exact H rest.length rest page rfl
  intro n
  induction n using Nat.strong_induction_on with
  | _ n ih =>
    intro rest page hlen
    by_cases hr : rest = []
    · subst hr
      rw [set_challenge_pages]
      simp [Nat.div_eq_of_lt (show P - 1 < P by omega)]
    · have hr0 : 0 < rest.length := List.length_pos.mpr hr
      have hstep : (rest.length + P - 1) / P
          = ((rest.drop P).length + P - 1) / P + 1 := by
        rw [List.length_drop]
        exact ceil_div_step P rest.length hP hr0
      have hdrop : (rest.drop P).length < n := by
        rw [List.length_drop]
        omega
      obtain ⟨ih1, ih2, ih3, ih4⟩ := ih (rest.drop P).length hdrop (rest.drop P)
        (page + 1) rfl
      rw [set_challenge_pages, dif_neg hr, if_neg (by omega : ¬ P = 0)]
      refine ⟨?_, ?_, ?_, ?_⟩
      · simp only [List.length_cons, ih1, hstep]
      · intro pg hpg
        rcases List.mem_cons.mp hpg with h | h
        · subst h
          refine ⟨rfl, ?_⟩
          simp [List.length_take]
        · exact ih2 pg h
      · simp only [List.map_cons, ih3, hstep, List.range'_succ page _ 1]
      · simp only [List.map_cons, List.flatten_cons, ih4,
          List.take_append_drop]

/-- Outbound paging with page size 0 sends the whole nonce in exactly one
exchange with parameters (0, 0). -/
lemma set_challenge_pages_zero (nonce : List Nat) (h : nonce ≠ []) :
    set_challenge_pages 0 nonce 0 = [(0, 0, nonce)] := by
  rw [set_challenge_pages, dif_neg h, if_pos rfl]

/-- Full characterisation of the inbound paging loop for a positive page
size: request count, parameters, per-request bound and total. -/
lemma get_response_pages_spec (P T : Nat) (hP : 0 < P) :
    ∀ got page,
      ((get_response_pages P T got page).length = ((T - got) + P - 1) / P)
    ∧ (∀ r ∈ get_response_pages P T got page, r.1 = P ∧ r.2.2 ≤ P)
    ∧ ((get_response_pages P T got page).map (fun r => r.2.1)
        = List.range' page (((T - got) + P - 1) / P))
    ∧ (((get_response_pages P T got page).map fun r => r.2.2).sum
        = T - got) := by
  suffices H : ∀ n got page, T - got = n →
      ((get_response_pages P T got page).length = ((T - got) + P - 1) / P)
    ∧ (∀ r ∈ get_response_pages P T got page, r.1 = P ∧ r.2.2 ≤ P)
    ∧ ((get_response_pages P T got page).map (fun r => r.2.1)
        = List.range' page (((T - got) + P - 1) / P))
    ∧ (((get_response_pages P T got page).map fun r => r.2.2).sum
        = T - got) by
    intro got page
    exact H (T - got) got page rfl
  intro n
  induction n using Nat.strong_induction_on with
  | _ n ih =>
    intro got page hrem
    by_cases hlt : got < T
    · have hle : (if P = 0 then T else min (T - got) P) = min (T - got) P := by
        rw [if_neg (by omega : ¬ P = 0)]
      have hrem' : T - (got + min (T - got) P) = (T - got) - P := by omega
      have hstep : ((T - got) + P - 1) / P
          = ((T - (got + min (T - got) P)) + P - 1) / P + 1 := by
        rw [hrem']
        exact ceil_div_step P (T - got) hP (by omega)
      have hless : T - (got + min (T - got) P) < n := by omega
      obtain ⟨ih1, ih2, ih3, ih4⟩ := ih (T - (got + min (T - got) P)) hless
        (got + min (T - got) P) (page + 1) rfl
      rw [get_response_pages]
      rw [dif_pos hlt]
      simp only [hle]
      refine ⟨?_, ?_, ?_, ?_⟩
      · simp only [List.length_cons, ih1, hstep]
      · intro r hr
        rcases List.mem_cons.mp hr with h | h
        · subst h
          exact ⟨rfl, Nat.min_le_right _ _⟩
        · exact ih2 r h
      · simp only [List.map_cons, ih3, hstep, List.range'_succ page _ 1]
      · simp only [List.map_cons, List.sum_cons, ih4]
        omega
    · rw [get_response_pages, dif_neg hlt]
      have : T - got = 0 := by omega
      simp [this, Nat.div_eq_of_lt (show P - 1 < P by omega)]

/-- Inbound paging with page size 0 issues exactly one request for the full
record length. -/
lemma get_response_pages_zero (T : Nat) (hT : 0 < T) :
    get_response_pages 0 T 0 0 = [(0, 0, T)] := by
  have h1 : get_response_pages 0 T 0 0
      = (0, 0, T) :: get_response_pages 0 T (0 + T) (0 + 1) := by
    rw [get_response_pages, dif_pos hT]
    rfl
  have h2 : get_response_pages 0 T (0 + T) (0 + 1) = [] := by
    rw [get_response_pages, dif_neg (by omega : ¬ (0 + T < T))]
  rw [h1, h2]

/-- C5: with a nonce of length S and page size P > 0, outbound paging
performs exactly ceil(S/P) `set_challenge` exchanges, each carrying
parameter-1 = P, parameter-2 = the 0-based exchange index, and a payload
slice of at most P bytes, with the payloads concatenating back to the
nonce; inbound paging requests at most P bytes per `get_response` exchange
with the same parameters until the accumulated length reaches
sizeof(DS4Response), the per-exchange requests summing to exactly that
size (assuming each exchange returns exactly the requested byte count).
With P = 0 a single exchange carries the whole nonce, and a single request
asks for the full record length. -/
theorem c5_chunked_transfer (P : Nat) (nonce : List Nat) :
    (0 < P →
        ((set_challenge_pages P nonce 0).length = (nonce.length + P - 1) / P)
      ∧ (∀ pg ∈ set_challenge_pages P nonce 0, pg.1 = P ∧ pg.2.2.length ≤ P)
      ∧ ((set_challenge_pages P nonce 0).map (fun pg => pg.2.1)
          = List.range (set_challenge_pages P nonce 0).length)
      ∧ (((set_challenge_pages P nonce 0).map fun pg => pg.2.2).flatten
          = nonce)
      ∧ ((get_response_pages P sizeof_DS4Response 0 0).length
          = (sizeof_DS4Response + P - 1) / P)
      ∧ (∀ r ∈ get_response_pages P sizeof_DS4Response 0 0,
            r.1 = P ∧ r.2.2 ≤ P)
      ∧ ((get_response_pages P sizeof_DS4Response 0 0).map (fun r => r.2.1)
          = List.range (get_response_pages P sizeof_DS4Response 0 0).length)
      ∧ (((get_response_pages P sizeof_DS4Response 0 0).map
            fun r => r.2.2).sum = sizeof_DS4Response))
  ∧ (P = 0 → nonce ≠ [] →
        set_challenge_pages 0 nonce 0 = [(0, 0, nonce)]
      ∧ get_response_pages 0 sizeof_DS4Response 0 0
          = [(0, 0, sizeof_DS4Response)]) := by
  constructor
  · intro hP
    obtain ⟨hs1, hs2, hs3, hs4⟩ := set_challenge_pages_spec P hP nonce 0
    obtain ⟨hg1, hg2, hg3, hg4⟩ :=
      get_response_pages_spec P sizeof_DS4Response hP 0 0
    refine ⟨hs1, hs2, ?_, hs4, ?_, hg2, ?_, ?_⟩
    · rw [hs3, hs1, List.range_eq_range']
    · simpa using hg1
    · rw [hg3, hg1, List.range_eq_range']
    · simpa using hg4
  · intro hP h
    subst hP
    exact ⟨set_challenge_pages_zero nonce h,
      get_response_pages_zero sizeof_DS4Response (by decide)⟩

/-- Witness for C5 at page size 2 with a 3-byte nonce, and at page size 0
with the same nonce: all hypotheses hold at these concrete inputs. -/
theorem c5_chunked_transfer_witness :
    (0 < 2
      ∧ ((set_challenge_pages 2 [9, 9, 9] 0).length
            = (([9, 9, 9] : List Nat).length + 2 - 1) / 2)
      ∧ (∀ pg ∈ set_challenge_pages 2 [9, 9, 9] 0,
            pg.1 = 2 ∧ pg.2.2.length ≤ 2)
      ∧ ((set_challenge_pages 2 [9, 9, 9] 0).map (fun pg => pg.2.1)
          = List.range (set_challenge_pages 2 [9, 9, 9] 0).length)
      ∧ (((set_challenge_pages 2 [9, 9, 9] 0).map fun pg => pg.2.2).flatten
          = [9, 9, 9])
      ∧ ((get_response_pages 2 sizeof_DS4Response 0 0).length
          = (sizeof_DS4Response + 2 - 1) / 2)
      ∧ (∀ r ∈ get_response_pages 2 sizeof_DS4Response 0 0,
            r.1 = 2 ∧ r.2.2 ≤ 2)
      ∧ ((get_response_pages 2 sizeof_DS4Response 0 0).map (fun r => r.2.1)
          = List.range (get_response_pages 2 sizeof_DS4Response 0 0).length)
      ∧ (((get_response_pages 2 sizeof_DS4Response 0 0).map
            fun r => r.2.2).sum = sizeof_DS4Response))
  ∧ (([9, 9, 9] : List Nat) ≠ []
      ∧ set_challenge_pages 0 [9, 9, 9] 0 = [(0, 0, [9, 9, 9])]
      ∧ get_response_pages 0 sizeof_DS4Response 0 0
          = [(0, 0, sizeof_DS4Response)]) := by
  have h1 := (c5_chunked_transfer 2 [9, 9, 9]).1 (by decide)
  have h2 := (c5_chunked_transfer 0 [9, 9, 9]).2 rfl (by decide)
  exact ⟨⟨by decide, h1⟩, ⟨by decide, h2⟩⟩

end Iscctl
